import Mathlib

set_option autoImplicit false

/-!
Shallow embedding of pyro/infer/util.py: the shape reducers
(reduce_to_target, reduce_to_shape), the MultiFrameTensor accumulator and
the Dice weighting engine, together with proofs checking the
natural-language specification against this code.

Tensors are modelled as a shape (list of dimension sizes) together with a
row-major flat data list; Python dicts are modelled as insertion-ordered
association lists; frozensets of frames are modelled as Finsets.
Operations that can raise in Python (broadcast errors, AttributeError,
assert failures) return Option or Except values.
-/

/-- Row-major size of a shape: the product of all dimension sizes. -/
def shapeProd (s : List Nat) : Nat := s.foldr (fun a b => a * b) 1

/-- A tensor: a shape and a row-major flat data list.  The data list of a
well-formed tensor has length shapeProd shape. -/
structure Tensor (R : Type) where
  shape : List Nat
  data : List R
deriving DecidableEq

/-- Number of dimensions, like Tensor.dim() in torch. -/
def Tensor.rank {R : Type} (t : Tensor R) : Nat := t.shape.length

/-- Size of the k-th dimension counted from the end (k is 1-based), like
Python negative indexing: tget s k is s[-k]. -/
def tget (l : List Nat) (k : Nat) : Nat := l.getD (l.length - k) 0

/-- Sum over dimension 0, dropping it: models source.sum(0). -/
def sumDim0 {R : Type} [Add R] [Zero R] (t : Tensor R) : Tensor R :=
  match t.shape with
  | [] => t
  | s0 :: rest =>
    let m := shapeProd rest
    ⟨rest, (List.range m).map fun j =>
      ((List.range s0).map fun i => t.data.getD (i * m + j) 0).sum⟩

/-- Sum over the dimension at position p (from the left), keeping it as a
size-1 axis: models source.sum(p, keepdim=True). -/
def sumAtKeep {R : Type} [Add R] [Zero R] (p : Nat) (t : Tensor R) : Tensor R :=
  let s := t.shape.getD p 1
  let inner := shapeProd (t.shape.drop (p + 1))
  ⟨t.shape.set p 1,
   (List.range (shapeProd (t.shape.take p) * inner)).map fun m =>
     ((List.range s).map fun i =>
       t.data.getD ((m / inner) * (s * inner) + i * inner + (m % inner)) 0).sum⟩

/-- Sum over the k-th dimension counted from the end (torch negative dim
-k), keeping it as a size-1 axis: models source.sum(-k, keepdim=True). -/
def sumNegKeep {R : Type} [Add R] [Zero R] (k : Nat) (t : Tensor R) : Tensor R :=
  sumAtKeep (t.rank - k) t

/-- Strip leading size-1 dimensions from a shape. -/
def squeezeShape : List Nat → List Nat
  | 1 :: rest => squeezeShape rest
  | s => s

/-- Repeatedly squeeze the leading dimension while it has size 1.  In
row-major layout this leaves the flat data unchanged.  Models the loop
while value.shape and value.shape[0] == 1: value.squeeze_(0). -/
def squeezeLead {R : Type} (t : Tensor R) : Tensor R :=
  ⟨squeezeShape t.shape, t.data⟩

/-- The while loop of reduce_to_target and reduce_to_shape: sum away
leading dimensions while the source has more dimensions than the target.
The fuel argument is an upper bound on the number of iterations; the
callers pass the source rank, which always suffices. -/
def reduceLead {R : Type} [Add R] [Zero R] : Nat → Tensor R → Nat → Tensor R
  | 0, t, _ => t
  | fuel + 1, t, L => if L < t.rank then reduceLead fuel (sumDim0 t) L else t

/-- Embedding of reduce_to_shape: sum away leading dimensions until the
rank is at most the target length, then for k = 1..dim sum dimension -k
(keeping it) whenever the source size there exceeds the target size. -/
def reduce_to_shape {R : Type} [Add R] [Zero R] (source : Tensor R) (shape : List Nat) :
    Tensor R :=
  let t1 := reduceLead source.rank source shape.length
  (List.range t1.rank).foldl
    (fun s k => if tget shape (k + 1) < tget s.shape (k + 1) then sumNegKeep (k + 1) s else s)
    t1

/-- Embedding of reduce_to_target: identical algorithm, with the target
given as a tensor whose shape is read off. -/
def reduce_to_target {R : Type} [Add R] [Zero R] (source target : Tensor R) : Tensor R :=
  let t1 := reduceLead source.rank source target.rank
  (List.range t1.rank).foldl
    (fun s k =>
      if tget target.shape (k + 1) < tget s.shape (k + 1) then sumNegKeep (k + 1) s else s)
    t1

/-- Broadcast compatibility of a source shape with a target shape, aligned
from the trailing dimension: at every common trailing position the target
size is 1 or equals the source size. -/
def trailCompat (src sh : List Nat) : Prop :=
  ∀ k < min src.length sh.length + 1, 1 ≤ k →
    (tget sh k = 1 ∨ tget sh k = tget src k)

instance : DecidablePred (fun p : List Nat × List Nat => trailCompat p.1 p.2) :=
  fun _ => Nat.decidableBallLT _ _

instance trailCompatDec (src sh : List Nat) : Decidable (trailCompat src sh) :=
  Nat.decidableBallLT _ _

/-- One independence context (a CondIndepStackFrame): a name, the negative
tensor dimension it vectorizes over, and whether it is vectorized.  Site
and frame names are modelled as natural numbers. -/
structure Frame where
  name : Nat
  dim : Int
  vectorized : Bool
deriving DecidableEq

/-- Injective code of an integer into the naturals. -/
def zcode (d : Int) : Nat := if 0 ≤ d then 2 * d.toNat else 2 * (-d).toNat + 1

/-- Injective key of a frame, used only to fix one iteration order over a
frozenset of frames (Python set iteration order is unspecified). -/
def Frame.key (f : Frame) : Nat :=
  Nat.pair f.name (Nat.pair (zcode f.dim) (cond f.vectorized 1 0))

/-- Key order on frames. -/
def Frame.keyLe (a b : Frame) : Prop := a.key ≤ b.key

instance : DecidableRel Frame.keyLe := fun a b => Nat.decLe a.key b.key

instance : IsTrans Frame Frame.keyLe := ⟨fun _ _ _ => Nat.le_trans⟩

instance : IsTotal Frame Frame.keyLe := ⟨fun a b => Nat.le_total a.key b.key⟩

theorem zcode_inj {d e : Int} (h : zcode d = zcode e) : d = e := by
  unfold zcode at h
  split at h <;> split at h <;> omega

theorem Frame.key_inj {a b : Frame} (h : a.key = b.key) : a = b := by
  unfold Frame.key at h
  have h1 := (Nat.pair_eq_pair.mp h).1
  have h2 := Nat.pair_eq_pair.mp (Nat.pair_eq_pair.mp h).2
  cases a with
  | mk na da va =>
    cases b with
    | mk nb db vb =>
      simp only at h1 h2
      have hd : da = db := zcode_inj h2.1
      have hv : va = vb := by
        cases va <;> cases vb <;> simp_all [cond]
      simp [h1, hd, hv]

instance : IsAntisymm Frame Frame.keyLe :=
  ⟨fun _ _ h1 h2 => Frame.key_inj (Nat.le_antisymm h1 h2)⟩

/-- One enumeration of a multiset of frames, sorted by key with a
structurally recursive insertion sort (kernel-computable, unlike
mergeSort); well defined because sorting by an antisymmetric total order
is permutation-invariant. -/
def orderedOfMultiset (ms : Multiset Frame) : List Frame :=
  Quot.liftOn ms (fun l => List.insertionSort Frame.keyLe l)
    (fun l1 l2 h =>
      List.eq_of_perm_of_sorted
        ((List.perm_insertionSort Frame.keyLe l1).trans
          (h.trans (List.perm_insertionSort Frame.keyLe l2).symm))
        (List.sorted_insertionSort Frame.keyLe l1)
        (List.sorted_insertionSort Frame.keyLe l2))

/-- Iteration order over a frozenset of frames: one fixed enumeration of
the set (Python set iteration order is an implementation detail; the
results proved below do not depend on the choice). -/
def orderedFrames (s : Finset Frame) : List Frame := orderedOfMultiset s.val

theorem mem_orderedOfMultiset (f : Frame) (ms : Multiset Frame) :
    f ∈ orderedOfMultiset ms ↔ f ∈ ms := by
  induction ms using Quotient.inductionOn with
  | h l =>
    show f ∈ List.insertionSort Frame.keyLe l ↔ f ∈ (l : Multiset Frame)
    rw [(List.perm_insertionSort Frame.keyLe l).mem_iff]
    simp

theorem mem_orderedFrames (f : Frame) (s : Finset Frame) :
    f ∈ orderedFrames s ↔ f ∈ s :=
  mem_orderedOfMultiset f s.val

/-- Lookup in an insertion-ordered association list (Python dict read). -/
def alookup {K B : Type} [DecidableEq K] (k : K) : List (K × B) → Option B
  | [] => none
  | p :: rest => if p.1 = k then some p.2 else alookup k rest

/-- Overwrite the value stored at an existing key, keeping its position
(Python dict write to a present key). -/
def aset {K B : Type} [DecidableEq K] (k : K) (v : B) : List (K × B) → List (K × B)
  | [] => []
  | p :: rest => if p.1 = k then (k, v) :: rest else p :: aset k v rest

/-- Defaultdict-style update: apply g to the stored value if the key is
present, else to the default, appending the new entry at the end (a Python
defaultdict inserts the key on first access, at the end of the order). -/
def aupdate {K B : Type} [DecidableEq K] (k : K) (g : B → B) (dflt : B) :
    List (K × B) → List (K × B)
  | [] => [(k, g dflt)]
  | p :: rest => if p.1 = k then (k, g p.2) :: rest else p :: aupdate k g dflt rest

/-- Broadcast two reversed shapes (trailing dimension first), as the torch
broadcasting rules do: equal sizes agree, a size-1 dimension stretches to
the other size, anything else is an error. -/
def bcastRev : List Nat → List Nat → Option (List Nat)
  | [], ys => some ys
  | x :: xs, [] => some (x :: xs)
  | x :: xs, y :: ys =>
    if x = y then (bcastRev xs ys).map (fun r => x :: r)
    else if x = 1 then (bcastRev xs ys).map (fun r => y :: r)
    else if y = 1 then (bcastRev xs ys).map (fun r => x :: r)
    else none

/-- Broadcast two shapes, aligning from the trailing dimension. -/
def broadcastShapes (a b : List Nat) : Option (List Nat) :=
  (bcastRev a.reverse b.reverse).map List.reverse

/-- Row-major flat index of a multi-index in a shape. -/
def flatIndex : List Nat → List Nat → Nat
  | _ :: srest, i :: irest => i * shapeProd srest + flatIndex srest irest
  | _, _ => 0

/-- Multi-index of a row-major flat position in a shape. -/
def unflatten : List Nat → Nat → List Nat
  | [], _ => []
  | _ :: rest, n => (n / shapeProd rest) :: unflatten rest (n % shapeProd rest)

/-- Read a tensor at a (possibly longer, broadcast) multi-index: drop the
extra leading coordinates, clamp coordinates of size-1 dimensions to 0. -/
def tensorAt {R : Type} [Zero R] (t : Tensor R) (idx : List Nat) : R :=
  let idx2 := idx.drop (idx.length - t.rank)
  let idx3 := (t.shape.zip idx2).map fun si => if si.1 = 1 then 0 else si.2
  t.data.getD (flatIndex t.shape idx3) 0

/-- Elementwise binary operation with torch broadcasting; none models the
RuntimeError raised on incompatible shapes. -/
def tensorZip {R : Type} [Zero R] (op : R → R → R) (x y : Tensor R) : Option (Tensor R) :=
  (broadcastShapes x.shape y.shape).map fun sh =>
    ⟨sh, (List.range (shapeProd sh)).map fun n =>
      op (tensorAt x (unflatten sh n)) (tensorAt y (unflatten sh n))⟩

/-- Broadcasting tensor addition. -/
def tensorAdd {R : Type} [Add R] [Zero R] (x y : Tensor R) : Option (Tensor R) :=
  tensorZip (fun a b => a + b) x y

/-- Broadcasting tensor multiplication. -/
def tensorMul {R : Type} [Mul R] [Zero R] (x y : Tensor R) : Option (Tensor R) :=
  tensorZip (fun a b => a * b) x y

/-- Elementwise map over a tensor. -/
def tmap {R : Type} (g : R → R) (t : Tensor R) : Tensor R := ⟨t.shape, t.data.map g⟩

/-- The set of vectorized frames of a cond_indep_stack:
frozenset(f for f in cond_indep_stack if f.vectorized). -/
def vectorizedFrames (stack : List Frame) : Finset Frame :=
  (stack.filter fun f => f.vectorized).toFinset

/-- Error kinds of MultiFrameTensor.add: the assert failure on the frame
dimension invariant (AssertionError) and an incompatible elementwise
addition (the RuntimeError torch raises on non-broadcastable shapes). -/
inductive AddError
  | assertViolation
  | broadcastError
deriving DecidableEq

/-- A MultiFrameTensor: an insertion-ordered mapping from frozensets of
vectorized frames to accumulated tensors. -/
abbrev MultiFrameTensor (R : Type) := List (Finset Frame × Tensor R)

/-- Processing of one (cond_indep_stack, value) pair by
MultiFrameTensor.add: compute the vectorized frame set, assert the
dimension invariant, then insert the value or add it elementwise to the
entry already stored under the same frame set. -/
def MultiFrameTensor.addPair {R : Type} [Add R] [Zero R] (m : MultiFrameTensor R)
    (stack : List Frame) (value : Tensor R) : Except AddError (MultiFrameTensor R) :=
  let frames := vectorizedFrames stack
  if ∀ f ∈ frames, f.dim < 0 ∧ -(value.rank : Int) ≤ f.dim then
    match alookup frames m with
    | some old =>
      match tensorAdd old value with
      | some t2 => .ok (aset frames t2 m)
      | none => .error .broadcastError
    | none => .ok (m ++ [(frames, value)])
  else .error .assertViolation

/-- Embedding of MultiFrameTensor.add: process the supplied pairs in
order; the first raised error propagates. -/
def MultiFrameTensor.add {R : Type} [Add R] [Zero R] (m : MultiFrameTensor R) :
    List (List Frame × Tensor R) → Except AddError (MultiFrameTensor R)
  | [] => .ok m
  | (stack, v) :: rest =>
    match MultiFrameTensor.addPair m stack v with
    | .ok m2 => MultiFrameTensor.add m2 rest
    | .error e => .error e

/-- The inner frame loop of sum_to on one stored entry: for each frame not
in the target whose dimension currently has size other than 1, sum that
dimension keeping it.  The boolean records whether any sum was taken,
i.e. whether the loop variable was rebound to a fresh tensor; when it is
false the loop variable still aliases the stored tensor. -/
def frameStep {R : Type} [Add R] [Zero R] (target : Finset Frame) (p : Tensor R × Bool)
    (f : Frame) : Tensor R × Bool :=
  if f ∉ target ∧ tget p.1.shape (-f.dim).toNat ≠ 1
  then (sumNegKeep (-f.dim).toNat p.1, true) else p

def frameLoop {R : Type} [Add R] [Zero R] (target : Finset Frame) (frames : List Frame)
    (v : Tensor R) : Tensor R × Bool :=
  frames.foldl (frameStep target) (v, false)

/-- The entry loop of sum_to.  Returns the running total (none before the
first entry) and the post-call stored entries: the in-place squeeze_ hits
the stored tensor exactly when the frame loop took no sum, because the
loop variable then still aliases the stored value.  An incompatible
total + value addition raises, modelled by returning none as the first
component; entries after the raise are left untouched, as in Python. -/
def sumToGo {R : Type} [Add R] [Zero R] (target : Finset Frame) :
    List (Finset Frame × Tensor R) → Option (Tensor R) →
    Option (Option (Tensor R)) × List (Finset Frame × Tensor R)
  | [], total => (some total, [])
  | (fs, v) :: rest, total =>
    let p := frameLoop target (orderedFrames fs) v
    let sq := squeezeLead p.1
    let stored := if p.2 then v else sq
    match total with
    | none =>
      let r := sumToGo target rest (some sq)
      (r.1, (fs, stored) :: r.2)
    | some tt =>
      match tensorAdd tt sq with
      | some t2 =>
        let r := sumToGo target rest (some t2)
        (r.1, (fs, stored) :: r.2)
      | none => (none, (fs, stored) :: rest)

/-- Embedding of MultiFrameTensor.sum_to: first component is the returned
total (outer none models a raised broadcast error, inner none is the None
returned for an empty accumulator), second component is the post-call
state of the stored entries. -/
def MultiFrameTensor.sum_to {R : Type} [Add R] [Zero R] (m : MultiFrameTensor R)
    (target : Finset Frame) :
    Option (Option (Tensor R)) × MultiFrameTensor R :=
  sumToGo target m none

/-- A Python value flowing through Dice: a plain number or a tensor. -/
inductive PyVal (R : Type)
  | num (q : R)
  | ten (t : Tensor R)
deriving DecidableEq

/-- Enumeration strategy recorded in a site's infer dict. -/
inductive EnumKind
  | sequential
  | parallel
deriving DecidableEq

/-- One trace site record, with the fields Dice.__init__ reads. -/
structure Site (R : Type) where
  isSampleType : Bool
  score_function : PyVal R
  enumerate : Option EnumKind
  enum_total : Nat

/-- Modelled from the spec: the zero-recognition predicate
is_identically_zero of pyro.distributions.util, whose source is not part
of this repository.  It recognizes the scalar zero sentinel meaning no
gradient contribution; a tensor-valued log-probability is never
identically zero, even if all its entries are. -/
def isIdenticallyZero {R : Type} [Zero R] [DecidableEq R] : PyVal R → Bool
  | .num q => decide (q = 0)
  | .ten _ => false

/-- Stop-gradient surrogate log_prob - log_prob.detach(), elementwise,
with the detach primitive supplied as a function on scalars. -/
def surrogate {R : Type} [Sub R] (dt : R → R) : PyVal R → PyVal R
  | .num q => .num (q - dt q)
  | .ten t => .ten (tmap (fun a => a - dt a) t)

/-- Key type of the _dice_prob_cache dict: the lookup uses the tuple
(shape, ordinal) while the store uses the bare ordinal, so both key forms
can occur in the dict. -/
inductive DKey
  | withShape (sh : List Nat) (o : Finset Frame)
  | ordOnly (o : Finset Frame)
deriving DecidableEq

/-- State of a Dice engine: the log_denom and log_probs defaultdicts and
the two memoization caches. -/
structure Dice (R : Type) where
  log_denom : List (Finset Frame × R)
  log_probs : List (Finset Frame × List (PyVal R))
  lfCache : List (Finset Frame × List (PyVal R))
  dpCache : List (DKey × PyVal R)
deriving DecidableEq

/-- Processing of one trace site by Dice.__init__: skip non-sample sites
and identically-zero score functions; a sequential-enumerated site adds
log(enum_total) to log_denom at its ordinal; a non-enumerated site is
replaced by its stop-gradient surrogate; the resulting term is appended
to log_probs at the site's ordinal.  The mlog argument stands for
math.log on the outcome count and dt for the detach primitive. -/
def diceSiteStep {R : Type} [Add R] [Sub R] [Zero R] [DecidableEq R] (mlog : Nat → R)
    (dt : R → R) (ordering : Nat → Finset Frame) (d : Dice R) (s : Nat × Site R) : Dice R :=
  if s.2.isSampleType = false then d
  else if isIdenticallyZero s.2.score_function then d
  else
    let o := ordering s.1
    match s.2.enumerate with
    | some .sequential =>
      { d with
        log_denom := aupdate o (fun a => a + mlog s.2.enum_total) 0 d.log_denom,
        log_probs := aupdate o (fun l => l ++ [s.2.score_function]) [] d.log_probs }
    | some .parallel =>
      { d with log_probs := aupdate o (fun l => l ++ [s.2.score_function]) [] d.log_probs }
    | none =>
      { d with
        log_probs := aupdate o (fun l => l ++ [surrogate dt s.2.score_function]) [] d.log_probs }

/-- Embedding of Dice.__init__ over a trace given as an ordered list of
(site name, site record) pairs and the external ordinal lookup. -/
def Dice.init {R : Type} [Add R] [Sub R] [Zero R] [DecidableEq R] (mlog : Nat → R)
    (dt : R → R) (trace : List (Nat × Site R)) (ordering : Nat → Finset Frame) : Dice R :=
  trace.foldl (diceSiteStep mlog dt ordering) ⟨[], [], [], []⟩

/-- Embedding of Dice.get_log_factors: answer from the cache when
possible; otherwise sum log_denom over the recorded ordinals not below
the target, start the factor list with the negated total unless it is
identically zero, append the log_probs lists of the ordinals below the
target, and cache the result.  Returns the list and the updated engine. -/
def Dice.get_log_factors {R : Type} [Add R] [Neg R] [Zero R] [DecidableEq R] (d : Dice R)
    (target : Finset Frame) : List (PyVal R) × Dice R :=
  match alookup target d.lfCache with
  | some v => (v, d)
  | none =>
    let ld : R := d.log_denom.foldl
      (fun acc p => if ¬ p.1 ⊆ target then acc + p.2 else acc) 0
    let start : List (PyVal R) := if isIdenticallyZero (PyVal.num ld) then [] else [.num (-ld)]
    let lf := d.log_probs.foldl
      (fun acc p => if p.1 ⊆ target then acc ++ p.2 else acc) start
    (lf, { d with lfCache := d.lfCache ++ [(target, lf)] })

/-- Python addition on Dice factor values: numbers add, a number added to
a tensor maps over its entries, tensors add with broadcasting. -/
def pyAdd {R : Type} [Add R] [Zero R] : PyVal R → PyVal R → Option (PyVal R)
  | .num a, .num b => some (.num (a + b))
  | .num a, .ten t => some (.ten (tmap (fun x => a + x) t))
  | .ten t, .num b => some (.ten (tmap (fun x => x + b) t))
  | .ten t, .ten u => (tensorAdd t u).map .ten

/-- Python sum(log_factors): fold pyAdd starting from the int 0. -/
def pySum {R : Type} [Add R] [Zero R] (l : List (PyVal R)) : Option (PyVal R) :=
  l.foldl (fun acc v => acc.bind fun a => pyAdd a v) (some (.num 0))

/-- The .exp() method call in get_dice_prob: tensors exponentiate
elementwise through the supplied mexp function; a plain number has no
.exp() method, so the call raises AttributeError, modelled as none. -/
def pyExpMeth {R : Type} (mexp : R → R) : PyVal R → Option (PyVal R)
  | .num _ => none
  | .ten t => some (.ten (tmap mexp t))

/-- Python multiplication dice_prob * cost, mirroring pyAdd. -/
def pyMul {R : Type} [Mul R] [Zero R] : PyVal R → PyVal R → Option (PyVal R)
  | .num a, .num b => some (.num (a * b))
  | .num a, .ten t => some (.ten (tmap (fun x => a * x) t))
  | .ten t, .num b => some (.ten (tmap (fun x => x * b) t))
  | .ten t, .ten u => (tensorMul t u).map .ten

/-- The .sum() method call of expectation: full reduction of a tensor to
a rank-0 tensor; a plain number has no .sum() method. -/
def pySumAll {R : Type} [Add R] [Zero R] : PyVal R → Option (PyVal R)
  | .num _ => none
  | .ten t => some (.ten ⟨[], [t.data.sum]⟩)

/-- Embedding of Dice.get_dice_prob: answer from the cache under the key
(shape, ordinal) when possible; otherwise sum the log factors of the
ordinal, exponentiate, and store the result under the bare ordinal key,
exactly as the source does.  A raised error is none. -/
def Dice.get_dice_prob {R : Type} [Add R] [Neg R] [Zero R] [DecidableEq R] (mexp : R → R)
    (d : Dice R) (shape : List Nat) (ordinal : Finset Frame) : Option (PyVal R) × Dice R :=
  match alookup (DKey.withShape shape ordinal) d.dpCache with
  | some v => (some v, d)
  | none =>
    let r := Dice.get_log_factors d ordinal
    match (pySum r.1).bind (pyExpMeth mexp) with
    | none => (none, r.2)
    | some dp => (some dp, { r.2 with dpCache := r.2.dpCache ++ [(DKey.ordOnly ordinal, dp)] })

/-- Embedding of Dice.expectation: weight the cost array by the dice
probability of its ordinal and fully sum. -/
def Dice.expectation {R : Type} [Add R] [Mul R] [Neg R] [Zero R] [DecidableEq R]
    (mexp : R → R) (d : Dice R) (cost : Tensor R) (ordinal : Finset Frame) :
    Option (PyVal R) × Dice R :=
  let r := Dice.get_dice_prob mexp d cost.shape ordinal
  match r.1 with
  | none => (none, r.2)
  | some dp =>
    match pyMul dp (.ten cost) with
    | none => (none, r.2)
    | some pr => (pySumAll pr, r.2)

/-- Follows the specification text of get_log_factors, for comparison
with the embedded code: log_denom_total is the sum of log_denom over
every recorded ordinal that is not a subset of the target; the list
starts with -log_denom_total unless that total is identically zero, and
then appends, in insertion order, every log_probs list whose ordinal is a
subset of the target. -/
def logFactorsSpec {R : Type} [Add R] [Neg R] [Zero R] [DecidableEq R] (d : Dice R)
    (target : Finset Frame) : List (PyVal R) :=
  let total : R := ((d.log_denom.filter fun p => decide (¬ p.1 ⊆ target)).map Prod.snd).sum
  (if total = 0 then [] else [PyVal.num (-total)]) ++
    ((d.log_probs.filter fun p => decide (p.1 ⊆ target)).map Prod.snd).flatten

/-- A dual number: a forward value together with the derivative of that
value with respect to one scalar parameter of the sampling
distributions.  Used to express the gradient behaviour of the
stop-gradient surrogate. -/
structure Dual where
  va : Int
  da : Int
deriving DecidableEq

instance : Zero Dual := ⟨⟨0, 0⟩⟩

instance : Add Dual := ⟨fun x y => ⟨x.va + y.va, x.da + y.da⟩⟩

instance : Sub Dual := ⟨fun x y => ⟨x.va - y.va, x.da - y.da⟩⟩

instance : Neg Dual := ⟨fun x => ⟨-x.va, -x.da⟩⟩

instance : Mul Dual := ⟨fun x y => ⟨x.va * y.va, x.va * y.da + y.va * x.da⟩⟩

/-- Detach on dual numbers: the stop-gradient primitive keeps the forward
value and drops the derivative. -/
def dualDetach (x : Dual) : Dual := ⟨x.va, 0⟩

/-- One exponential function on dual numbers that is exact at forward
value zero: exp of 0 + b eps is 1 + b eps.  Any function with this
property satisfies the hypotheses of the expectation theorem. -/
def dualExp (x : Dual) : Dual := ⟨1, x.da⟩

theorem sumDim0_shape {R : Type} [Add R] [Zero R] (t : Tensor R) :
    (sumDim0 t).shape = t.shape.tail := by
  rcases t with ⟨sh, d⟩
  cases sh <;> rfl

theorem sumNegKeep_shape {R : Type} [Add R] [Zero R] (k : Nat) (t : Tensor R) :
    (sumNegKeep k t).shape = t.shape.set (t.shape.length - k) 1 := rfl

theorem sumNegKeep_rank {R : Type} [Add R] [Zero R] (k : Nat) (t : Tensor R) :
    (sumNegKeep k t).rank = t.rank := by
  simp [Tensor.rank, sumNegKeep_shape]

theorem tget_drop (l : List Nat) (d k : Nat) (h1 : 1 ≤ k) (h2 : k ≤ l.length - d) :
    tget (l.drop d) k = tget l k := by
  unfold tget
  rw [List.getD_eq_getElem?_getD, List.getD_eq_getElem?_getD, List.getElem?_drop,
    List.length_drop]
  congr 2
  omega

theorem tget_set_self (l : List Nat) (v k : Nat) (h1 : 1 ≤ k) (h2 : k ≤ l.length) :
    tget (l.set (l.length - k) v) k = v := by
  unfold tget
  rw [List.getD_eq_getElem?_getD, List.length_set, List.getElem?_set_self (by omega)]
  rfl

theorem tget_set_ne (l : List Nat) (v k j : Nat) (h2 : k ≤ l.length)
    (h4 : j ≤ l.length) (h5 : j ≠ k) :
    tget (l.set (l.length - k) v) j = tget l j := by
  unfold tget
  rw [List.getD_eq_getElem?_getD, List.getD_eq_getElem?_getD, List.length_set,
    List.getElem?_set_ne (by omega)]

theorem reduceLead_shape {R : Type} [Add R] [Zero R] :
    ∀ (fuel : Nat) (t : Tensor R) (L : Nat), t.rank - L ≤ fuel →
    (reduceLead fuel t L).shape = t.shape.drop (t.rank - L)
  | 0, t, L, h => by
    have hz : t.rank - L = 0 := by omega
    rw [hz]
    rfl
  | fuel + 1, t, L, h => by
    by_cases hL : L < t.rank
    · have hs : (sumDim0 t).shape = t.shape.tail := sumDim0_shape t
      have hr : (sumDim0 t).rank = t.rank - 1 := by
        simp [Tensor.rank, hs]
      have ih := reduceLead_shape fuel (sumDim0 t) L (by omega)
      rw [reduceLead, if_pos hL, ih, hs, hr, ← List.drop_one, List.drop_drop]
      congr 1
      omega
    · have hz : t.rank - L = 0 := by omega
      rw [reduceLead, if_neg hL, hz]
      rfl

theorem reduceLead_rank {R : Type} [Add R] [Zero R] (fuel : Nat) (t : Tensor R) (L : Nat)
    (h : t.rank - L ≤ fuel) : (reduceLead fuel t L).rank = min t.rank L := by
  have := reduceLead_shape fuel t L h
  simp only [Tensor.rank] at *
  rw [this, List.length_drop]
  omega

theorem reduceLead_id {R : Type} [Add R] [Zero R] (fuel : Nat) (t : Tensor R) (L : Nat)
    (h : t.rank ≤ L) : reduceLead fuel t L = t := by
  cases fuel with
  | zero => rfl
  | succ fuel => rw [reduceLead, if_neg (by omega)]

theorem reduceLead_tget {R : Type} [Add R] [Zero R] (fuel : Nat) (t : Tensor R) (L k : Nat)
    (h : t.rank - L ≤ fuel) (h1 : 1 ≤ k) (h2 : k ≤ min t.rank L) :
    tget (reduceLead fuel t L).shape k = tget t.shape k := by
  rw [reduceLead_shape fuel t L h]
  exact tget_drop _ _ _ h1 (by simp only [Tensor.rank] at h2 ⊢; omega)

theorem trailFold_rank {R : Type} [Add R] [Zero R] (sh : List Nat) :
    ∀ (l : List Nat) (t : Tensor R),
    (l.foldl
      (fun s k => if tget sh (k + 1) < tget s.shape (k + 1) then sumNegKeep (k + 1) s else s)
      t).rank = t.rank
  | [], _ => rfl
  | i :: rest, t => by
    rw [List.foldl_cons]
    by_cases hc : tget sh (i + 1) < tget t.shape (i + 1)
    · rw [if_pos hc, trailFold_rank sh rest, sumNegKeep_rank]
    · rw [if_neg hc, trailFold_rank sh rest]

theorem trailFold_invariant {R : Type} [Add R] [Zero R] (sh : List Nat) (t : Tensor R) :
    ∀ j, j ≤ t.rank → ∀ k, 1 ≤ k → k ≤ t.rank →
    tget ((List.range j).foldl
      (fun s k => if tget sh (k + 1) < tget s.shape (k + 1) then sumNegKeep (k + 1) s else s)
      t).shape k
      = if k ≤ j then (if tget sh k < tget t.shape k then 1 else tget t.shape k)
        else tget t.shape k
  | 0, _, k, hk1, _ => by
    rw [List.range_zero, List.foldl_nil, if_neg (show ¬ k ≤ 0 by omega)]
  | j + 1, hj, k, hk1, hk2 => by
    rw [List.range_succ, List.foldl_append, List.foldl_cons, List.foldl_nil]
    have hlen : ((List.range j).foldl
        (fun s k => if tget sh (k + 1) < tget s.shape (k + 1) then sumNegKeep (k + 1) s
          else s) t).shape.length = t.rank := trailFold_rank sh (List.range j) t
    have ihj := trailFold_invariant sh t j (by omega) (j + 1) (by omega) (by omega)
    rw [if_neg (show ¬ j + 1 ≤ j by omega)] at ihj
    by_cases hc : tget sh (j + 1)
        < tget ((List.range j).foldl
          (fun s k => if tget sh (k + 1) < tget s.shape (k + 1) then sumNegKeep (k + 1) s
            else s) t).shape (j + 1)
    · rw [if_pos hc, sumNegKeep_shape]
      by_cases hkj : k = j + 1
      · subst hkj
        rw [tget_set_self _ 1 (k := j + 1) (by omega) (by omega)]
        rw [ihj] at hc
        rw [if_pos (show j + 1 ≤ j + 1 by omega), if_pos hc]
      · rw [tget_set_ne _ 1 (j + 1) k (by omega) (by omega) hkj]
        rw [trailFold_invariant sh t j (by omega) k hk1 hk2]
        by_cases hkj2 : k ≤ j
        · rw [if_pos hkj2, if_pos (show k ≤ j + 1 by omega)]
        · rw [if_neg hkj2, if_neg (show ¬ k ≤ j + 1 by omega)]
    · rw [if_neg hc]
      rw [trailFold_invariant sh t j (by omega) k hk1 hk2]
      rw [ihj] at hc
      by_cases hkj : k = j + 1
      · subst hkj
        rw [if_neg (show ¬ j + 1 ≤ j by omega), if_pos (show j + 1 ≤ j + 1 by omega),
          if_neg hc]
      · by_cases hkj2 : k ≤ j
        · rw [if_pos hkj2, if_pos (show k ≤ j + 1 by omega)]
        · rw [if_neg hkj2, if_neg (show ¬ k ≤ j + 1 by omega)]

theorem trailFold_id {R : Type} [Add R] [Zero R] (sh : List Nat) :
    ∀ (l : List Nat) (t : Tensor R),
    (∀ i ∈ l, ¬ tget sh (i + 1) < tget t.shape (i + 1)) →
    l.foldl
      (fun s k => if tget sh (k + 1) < tget s.shape (k + 1) then sumNegKeep (k + 1) s else s)
      t = t
  | [], _, _ => rfl
  | i :: rest, t, h => by
    rw [List.foldl_cons, if_neg (h i (by simp))]
    exact trailFold_id sh rest t fun i2 hi2 => h i2 (by simp [hi2])

theorem reduce_to_shape_rank {R : Type} [Add R] [Zero R] (source : Tensor R)
    (shape : List Nat) : (reduce_to_shape source shape).rank = min source.rank shape.length := by
  unfold reduce_to_shape
  rw [trailFold_rank, reduceLead_rank source.rank source shape.length (by omega)]

theorem reduce_to_shape_tget {R : Type} [Add R] [Zero R] (source : Tensor R)
    (shape : List Nat) (k : Nat) (hk1 : 1 ≤ k) (hk2 : k ≤ min source.rank shape.length) :
    tget (reduce_to_shape source shape).shape k
      = if tget shape k < tget source.shape k then 1 else tget source.shape k := by
  unfold reduce_to_shape
  have hrank := reduceLead_rank source.rank source shape.length (by omega)
  have htg := reduceLead_tget source.rank source shape.length k (by omega) hk1 hk2
  rw [trailFold_invariant shape (reduceLead source.rank source shape.length)
    (reduceLead source.rank source shape.length).rank (by omega) k hk1 (by omega),
    if_pos (show k ≤ (reduceLead source.rank source shape.length).rank by omega), htg]

theorem reduce_to_shape_fix {R : Type} [Add R] [Zero R] (source : Tensor R)
    (shape : List Nat) (hr : source.rank ≤ shape.length)
    (h : ∀ k, 1 ≤ k → k ≤ source.rank → ¬ tget shape k < tget source.shape k) :
    reduce_to_shape source shape = source := by
  unfold reduce_to_shape
  rw [reduceLead_id source.rank source shape.length hr]
  exact trailFold_id shape (List.range source.rank) source fun i hi =>
    h (i + 1) (by omega) (by simp at hi; omega)

/-- Claim C9: for broadcast-compatible x and shape, reduce_to_shape is
idempotent: applying it a second time returns the first result
unchanged. -/
theorem claim_C9 {R : Type} [Add R] [Zero R] (x : Tensor R) (shape : List Nat)
    (h : trailCompat x.shape shape) :
    reduce_to_shape (reduce_to_shape x shape) shape = reduce_to_shape x shape := by
  have hrank := reduce_to_shape_rank x shape
  apply reduce_to_shape_fix
  · omega
  · intro k hk1 hk2
    rw [hrank] at hk2
    have hcomp := h k (by simp only [Tensor.rank] at hk2; omega) hk1
    rw [reduce_to_shape_tget x shape k hk1 (by omega)]
    rcases hcomp with h1 | h1 <;> rw [h1]
    · by_cases hc : (1 : Nat) < tget x.shape k
      · rw [if_pos hc]
        omega
      · rw [if_neg hc]
        omega
    · rw [if_neg (by omega)]
      omega

/-- Witness for claim C9 at a concrete input: a 2 by 3 tensor reduced to
shape (1, 3). -/
theorem claim_C9_witness :
    trailCompat (Tensor.shape ⟨[2, 3], ([1, 2, 3, 4, 5, 6] : List Rat)⟩) [1, 3]
    ∧ reduce_to_shape
        (reduce_to_shape (⟨[2, 3], ([1, 2, 3, 4, 5, 6] : List Rat)⟩ : Tensor Rat) [1, 3])
        [1, 3]
      = reduce_to_shape (⟨[2, 3], ([1, 2, 3, 4, 5, 6] : List Rat)⟩ : Tensor Rat) [1, 3] :=
  ⟨by decide, claim_C9 ⟨[2, 3], ([1, 2, 3, 4, 5, 6] : List Rat)⟩ [1, 3] (by decide)⟩

/-- Counterexample to claim C10 as stated: a source axis of size 0
against a target size of 1 satisfies the trailing-dimension broadcast
precondition, yet both reducers return it unchanged with size 0, not the
target's size 1. -/
theorem claim_C10_counterexample :
    trailCompat [0] [1]
    ∧ tget (reduce_to_shape (⟨[0], ([] : List Rat)⟩ : Tensor Rat) [1]).shape 1 ≠ tget [1] 1
    ∧ tget (reduce_to_target (⟨[0], ([] : List Rat)⟩ : Tensor Rat)
        ⟨[1], ([37] : List Rat)⟩).shape 1 ≠ tget [1] 1 := by
  refine ⟨by decide, by decide, by decide⟩

/-- Claim C10 as amended: under the broadcast precondition and provided
the compared trailing source sizes are nonzero, reduce_to_target (equal
by definition to reduce_to_shape at the target's shape) returns a tensor
of rank min(rank source, rank target) whose every trailing size equals
the target's size there. -/
theorem claim_C10_amended {R : Type} [Add R] [Zero R] (source target : Tensor R)
    (h1 : trailCompat source.shape target.shape)
    (h2 : ∀ k < min source.rank target.rank + 1, 1 ≤ k → tget source.shape k ≠ 0) :
    reduce_to_target source target = reduce_to_shape source target.shape
    ∧ (reduce_to_target source target).rank = min source.rank target.rank
    ∧ (∀ k, 1 ≤ k → k ≤ min source.rank target.rank →
        tget (reduce_to_target source target).shape k = tget target.shape k) := by
  refine ⟨rfl, reduce_to_shape_rank source target.shape, ?_⟩
  intro k hk1 hk2
  have heq : reduce_to_target source target = reduce_to_shape source target.shape := rfl
  rw [heq, reduce_to_shape_tget source target.shape k hk1 hk2]
  have hcomp := h1 k (by simp only [Tensor.rank] at hk2; omega) hk1
  have hnz := h2 k (by omega) hk1
  rcases hcomp with h3 | h3 <;> rw [h3]
  · by_cases hc : (1 : Nat) < tget source.shape k
    · rw [if_pos hc]
    · rw [if_neg hc]
      omega
  · rw [if_neg (by omega)]

/-- Witness for the amended claim C10: a rank-3 source reduced against a
rank-2 target of shape (1, 4). -/
theorem claim_C10_amended_witness :
    trailCompat [2, 3, 4] [1, 4]
    ∧ (∀ k < min 3 2 + 1, 1 ≤ k → tget [2, 3, 4] k ≠ 0)
    ∧ (reduce_to_target (⟨[2, 3, 4], List.replicate 24 (1 : Rat)⟩ : Tensor Rat)
          ⟨[1, 4], List.replicate 4 (0 : Rat)⟩
        = reduce_to_shape (⟨[2, 3, 4], List.replicate 24 (1 : Rat)⟩ : Tensor Rat) [1, 4]
      ∧ (reduce_to_target (⟨[2, 3, 4], List.replicate 24 (1 : Rat)⟩ : Tensor Rat)
          ⟨[1, 4], List.replicate 4 (0 : Rat)⟩).rank = min 3 2
      ∧ (∀ k, 1 ≤ k → k ≤ min 3 2 →
          tget (reduce_to_target (⟨[2, 3, 4], List.replicate 24 (1 : Rat)⟩ : Tensor Rat)
            ⟨[1, 4], List.replicate 4 (0 : Rat)⟩).shape k = tget [1, 4] k)) :=
  ⟨by decide, by decide,
    claim_C10_amended ⟨[2, 3, 4], List.replicate 24 (1 : Rat)⟩
      ⟨[1, 4], List.replicate 4 (0 : Rat)⟩ (by decide) (by decide)⟩

theorem foldl_add_filter {R : Type} [AddMonoid R] (target : Finset Frame) :
    ∀ (l : List (Finset Frame × R)) (z : R),
    l.foldl (fun acc p => if ¬ p.1 ⊆ target then acc + p.2 else acc) z
      = z + ((l.filter fun p => decide (¬ p.1 ⊆ target)).map Prod.snd).sum
  | [], z => by simp
  | p :: rest, z => by
    rw [List.foldl_cons, List.filter_cons]
    by_cases hp : p.1 ⊆ target
    · rw [if_neg (by simpa using hp), if_neg (by simpa using hp),
        foldl_add_filter target rest z]
    · rw [if_pos (by simpa using hp), if_pos (by simpa using hp),
        foldl_add_filter target rest (z + p.2), List.map_cons, List.sum_cons, add_assoc]

theorem foldl_app_filter {B : Type} (target : Finset Frame) :
    ∀ (l : List (Finset Frame × List B)) (acc : List B),
    l.foldl (fun acc p => if p.1 ⊆ target then acc ++ p.2 else acc) acc
      = acc ++ ((l.filter fun p => decide (p.1 ⊆ target)).map Prod.snd).flatten
  | [], acc => by simp
  | p :: rest, acc => by
    rw [List.foldl_cons, List.filter_cons]
    by_cases hp : p.1 ⊆ target
    · rw [if_pos hp, if_pos (by simpa using hp), foldl_app_filter target rest (acc ++ p.2),
        List.map_cons, List.flatten_cons, List.append_assoc]
    · rw [if_neg hp, if_neg (by simpa using hp), foldl_app_filter target rest acc]

/-- Claim C1: on an ordinal not yet in the factor cache, get_log_factors
returns exactly the list the specification describes: the negated sum of
log_denom over the recorded ordinals not below the target, omitted when
identically zero, followed in insertion order by the log_probs lists of
the ordinals below the target. -/
theorem claim_C1 {R : Type} [AddMonoid R] [Neg R] [DecidableEq R] (d : Dice R)
    (target : Finset Frame) (hc : alookup target d.lfCache = none) :
    (Dice.get_log_factors d target).1 = logFactorsSpec d target := by
  unfold Dice.get_log_factors logFactorsSpec
  rw [hc]
  dsimp only
  have hd := foldl_add_filter target d.log_denom 0
  rw [zero_add] at hd
  rw [foldl_app_filter, hd, isIdenticallyZero]
  by_cases hz : ((d.log_denom.filter fun p => decide (¬ p.1 ⊆ target)).map Prod.snd).sum = 0
  · rw [if_pos (by simpa using hz), if_pos hz]
  · rw [if_neg (by simpa using hz), if_neg hz]

/-- Witness for claim C1: a concrete engine with one denominator entry
not below the empty target and probe lists at two ordinals. -/
theorem claim_C1_witness :
    alookup (∅ : Finset Frame)
      (Dice.lfCache
        (⟨[({⟨0, -1, true⟩}, 3), (∅, 5)],
          [(∅, [PyVal.num 7]), ({⟨0, -1, true⟩}, [PyVal.ten ⟨[], [2]⟩])], [], []⟩ : Dice Rat))
      = none
    ∧ (Dice.get_log_factors
        (⟨[({⟨0, -1, true⟩}, 3), (∅, 5)],
          [(∅, [PyVal.num 7]), ({⟨0, -1, true⟩}, [PyVal.ten ⟨[], [2]⟩])], [], []⟩ : Dice Rat)
        ∅).1
      = logFactorsSpec
        (⟨[({⟨0, -1, true⟩}, 3), (∅, 5)],
          [(∅, [PyVal.num 7]), ({⟨0, -1, true⟩}, [PyVal.ten ⟨[], [2]⟩])], [], []⟩ : Dice Rat)
        ∅ :=
  ⟨by decide,
    claim_C1
      (⟨[({⟨0, -1, true⟩}, 3), (∅, 5)],
        [(∅, [PyVal.num 7]), ({⟨0, -1, true⟩}, [PyVal.ten ⟨[], [2]⟩])], [], []⟩ : Dice Rat)
      ∅ (by decide)⟩

/-- The vectorized frame of the claim scenarios. -/
def frameF : Frame := ⟨0, -1, true⟩

/-- The ordinal containing just frameF. -/
def ordF : Finset Frame := {frameF}

/-- Concrete trace of claim C3: one sequential-enumerated sample site
with 3 total outcomes and one ordinary Monte-Carlo sampled site, both at
ordinal ordF. -/
def traceC3 : List (Nat × Site Int) :=
  [(1, ⟨true, .ten ⟨[], [2]⟩, some .sequential, 3⟩),
   (2, ⟨true, .ten ⟨[], [3]⟩, none, 0⟩)]

/-- The Dice engine built from traceC3, with log modelled by the cast of
the outcome count (so that log 3 is the nonzero value 3) and detach the
identity on forward values. -/
def diceC3 : Dice Int := Dice.init (fun n => (n : Int)) (fun q => q) traceC3 (fun _ => ordF)

/-- Counterexample to claim C3 as stated: queried at the shared ordinal
itself, get_log_factors returns only the two recorded probability terms;
the -log(3) term (here -3, since log is modelled by the cast) does not
appear, because the denominator sums only the ordinals that are not a
subset of the target and the shared ordinal is a subset of itself. -/
theorem claim_C3_counterexample :
    (Dice.get_log_factors diceC3 ordF).1
      = [PyVal.ten ⟨[], [2]⟩, PyVal.ten ⟨[], [0]⟩]
    ∧ PyVal.num (-(3 : Int)) ∉ (Dice.get_log_factors diceC3 ordF).1 := by
  refine ⟨by decide, by decide⟩

/-- Claim C3 as amended: in the trace with one sequential-enumerated
sample site of 3 outcomes and one ordinary sampled site sharing ordinal
ordF, the -log(3) term appears in get_log_factors exactly at the target
ordinals of which the shared ordinal is not a subset, such as the empty
ordinal; at the shared ordinal itself it is omitted. -/
theorem claim_C3_amended (mlog : Nat → Int) (dt : Int → Int) (t1 t2 : Tensor Int)
    (hm : mlog 3 ≠ 0) :
    (Dice.get_log_factors
      (Dice.init mlog dt
        [(1, ⟨true, .ten t1, some .sequential, 3⟩), (2, ⟨true, .ten t2, none, 0⟩)]
        (fun _ => ordF)) ∅).1
      = [PyVal.num (-(mlog 3))]
    ∧ PyVal.num (-(mlog 3)) ∉
      (Dice.get_log_factors
        (Dice.init mlog dt
          [(1, ⟨true, .ten t1, some .sequential, 3⟩), (2, ⟨true, .ten t2, none, 0⟩)]
          (fun _ => ordF)) ordF).1 := by
  have hne : ¬ ordF = (∅ : Finset Frame) := by decide
  constructor
  · simp [Dice.init, diceSiteStep, isIdenticallyZero, aupdate, Dice.get_log_factors,
      alookup, hne, hm]
  · simp [Dice.init, diceSiteStep, isIdenticallyZero, aupdate, Dice.get_log_factors,
      alookup, hne, surrogate]

/-- Witness for the amended claim C3, with log modelled by the cast of
the outcome count and concrete scalar log-probability tensors. -/
theorem claim_C3_amended_witness :
    ((3 : Nat) : Int) ≠ 0
    ∧ ((Dice.get_log_factors
        (Dice.init (fun n => (n : Int)) (fun q => q)
          [(1, ⟨true, .ten ⟨[], [2]⟩, some .sequential, 3⟩),
           (2, ⟨true, .ten ⟨[], [3]⟩, none, 0⟩)]
          (fun _ => ordF)) ∅).1
        = [PyVal.num (-(((3 : Nat) : Int)))]
      ∧ PyVal.num (-(((3 : Nat) : Int))) ∉
        (Dice.get_log_factors
          (Dice.init (fun n => (n : Int)) (fun q => q)
            [(1, ⟨true, .ten ⟨[], [2]⟩, some .sequential, 3⟩),
             (2, ⟨true, .ten ⟨[], [3]⟩, none, 0⟩)]
            (fun _ => ordF)) ordF).1) :=
  ⟨by decide,
    claim_C3_amended (fun n => (n : Int)) (fun q => q) ⟨[], [2]⟩ ⟨[], [3]⟩ (by decide)⟩

/-- Concrete engine of claim C4: one recorded scalar tensor log-prob at
the empty ordinal and empty caches. -/
def diceC4 : Dice Int := ⟨[], [(∅, [PyVal.ten ⟨[], [0]⟩])], [], []⟩

/-- Claim C4 (recording the cache-key bug): after one call of
get_dice_prob with shape [] and the empty ordinal, the dice-prob cache
holds the value under the bare-ordinal key only, the (shape, ordinal) key
the next call looks up is absent, and the second call therefore
recomputes, producing the identical value. -/
theorem claim_C4 :
    (Dice.get_dice_prob (fun q => 1 + q) diceC4 [] ∅).2.dpCache
      = [(DKey.ordOnly ∅, PyVal.ten ⟨[], [1]⟩)]
    ∧ alookup (DKey.withShape [] ∅)
        (Dice.get_dice_prob (fun q => 1 + q) diceC4 [] ∅).2.dpCache = none
    ∧ (Dice.get_dice_prob (fun q => 1 + q)
        (Dice.get_dice_prob (fun q => 1 + q) diceC4 [] ∅).2 [] ∅).1
      = (Dice.get_dice_prob (fun q => 1 + q) diceC4 [] ∅).1
    ∧ (Dice.get_dice_prob (fun q => 1 + q) diceC4 [] ∅).1
      = some (PyVal.ten ⟨[], [1]⟩) := by
  refine ⟨by decide, by decide, by decide, by decide⟩

/-- Claim C6 (recording the empty-factor bug): on an engine with no
recorded contributions, get_log_factors of the empty ordinal returns the
empty list as the claim says, but get_dice_prob does not return the
neutral weight 1: sum of an empty factor list is the plain number 0,
whose .exp() method call raises, modelled as none. -/
theorem claim_C6 :
    (Dice.get_log_factors (⟨[], [], [], []⟩ : Dice Int) ∅).1 = []
    ∧ (Dice.get_dice_prob (fun q => 1 + q) (⟨[], [], [], []⟩ : Dice Int) [] ∅).1 = none := by
  refine ⟨by decide, by decide⟩

theorem Dual.zero_mk : (0 : Dual) = ⟨0, 0⟩ := rfl

theorem Dual.add_mk (a b c d : Int) : (⟨a, b⟩ : Dual) + ⟨c, d⟩ = ⟨a + c, b + d⟩ := rfl

theorem Dual.mul_mk (a b c d : Int) : (⟨a, b⟩ : Dual) * ⟨c, d⟩ = ⟨a * c, a * d + c * b⟩ := rfl

/-- Claim C2: in the trace with non-enumerated sites x at ordinal {} (a
scalar log-prob) and y at ordinal {F} (a size-4 log-prob), and a cost of
shape (4,) at {F}, expectation returns a scalar (rank-0 tensor) whose
forward value is the plain sum of the cost entries -- each recorded
contribution log_prob - detach(log_prob) is forward-zero, so the dice
weight is exp 0 = 1 in forward value -- and whose derivative carries both
sites' score-function derivatives weighted by the cost.  Scalars are dual
numbers (forward value, derivative); mexp is any exponential exact at
forward value zero. -/
theorem claim_C2 (mexp : Dual → Dual)
    (hexp : ∀ x : Dual, x.va = 0 → mexp x = ⟨1, x.da⟩)
    (px bx p0 b0 p1 b1 p2 b2 p3 b3 c0 c1 c2 c3 : Int) :
    (Dice.expectation mexp
      (Dice.init (fun _ => (0 : Dual)) dualDetach
        [(1, ⟨true, .ten ⟨[], [⟨px, bx⟩]⟩, none, 0⟩),
         (2, ⟨true, .ten ⟨[4], [⟨p0, b0⟩, ⟨p1, b1⟩, ⟨p2, b2⟩, ⟨p3, b3⟩]⟩, none, 0⟩)]
        (fun n => if n = 1 then ∅ else ordF))
      ⟨[4], [⟨c0, 0⟩, ⟨c1, 0⟩, ⟨c2, 0⟩, ⟨c3, 0⟩]⟩ ordF).1
    = some (.ten ⟨[], [⟨c0 + c1 + c2 + c3,
        (c0 + c1 + c2 + c3) * bx + (c0 * b0 + c1 * b1 + c2 * b2 + c3 * b3)⟩]⟩) := by
  have key : (Dice.expectation mexp
      (Dice.init (fun _ => (0 : Dual)) dualDetach
        [(1, ⟨true, .ten ⟨[], [⟨px, bx⟩]⟩, none, 0⟩),
         (2, ⟨true, .ten ⟨[4], [⟨p0, b0⟩, ⟨p1, b1⟩, ⟨p2, b2⟩, ⟨p3, b3⟩]⟩, none, 0⟩)]
        (fun n => if n = 1 then ∅ else ordF))
      ⟨[4], [⟨c0, 0⟩, ⟨c1, 0⟩, ⟨c2, 0⟩, ⟨c3, 0⟩]⟩ ordF).1
    = some (.ten ⟨[], [
        mexp (0 + ⟨px - px, bx - 0⟩ + ⟨p0 - p0, b0 - 0⟩) * ⟨c0, 0⟩
        + (mexp (0 + ⟨px - px, bx - 0⟩ + ⟨p1 - p1, b1 - 0⟩) * ⟨c1, 0⟩
        + (mexp (0 + ⟨px - px, bx - 0⟩ + ⟨p2 - p2, b2 - 0⟩) * ⟨c2, 0⟩
        + (mexp (0 + ⟨px - px, bx - 0⟩ + ⟨p3 - p3, b3 - 0⟩) * ⟨c3, 0⟩ + 0)))]⟩) := rfl
  rw [key]
  have e0 : (0 : Dual) + ⟨px - px, bx - 0⟩ + ⟨p0 - p0, b0 - 0⟩ = (⟨0, bx + b0⟩ : Dual) := by
    rw [Dual.zero_mk, Dual.add_mk, Dual.add_mk]
    congr 1 <;> ring
  have e1 : (0 : Dual) + ⟨px - px, bx - 0⟩ + ⟨p1 - p1, b1 - 0⟩ = (⟨0, bx + b1⟩ : Dual) := by
    rw [Dual.zero_mk, Dual.add_mk, Dual.add_mk]
    congr 1 <;> ring
  have e2 : (0 : Dual) + ⟨px - px, bx - 0⟩ + ⟨p2 - p2, b2 - 0⟩ = (⟨0, bx + b2⟩ : Dual) := by
    rw [Dual.zero_mk, Dual.add_mk, Dual.add_mk]
    congr 1 <;> ring
  have e3 : (0 : Dual) + ⟨px - px, bx - 0⟩ + ⟨p3 - p3, b3 - 0⟩ = (⟨0, bx + b3⟩ : Dual) := by
    rw [Dual.zero_mk, Dual.add_mk, Dual.add_mk]
    congr 1 <;> ring
  rw [e0, e1, e2, e3, hexp ⟨0, bx + b0⟩ rfl, hexp ⟨0, bx + b1⟩ rfl,
    hexp ⟨0, bx + b2⟩ rfl, hexp ⟨0, bx + b3⟩ rfl]
  simp only [Dual.zero_mk, Dual.mul_mk, Dual.add_mk, Option.some.injEq, PyVal.ten.injEq,
    Tensor.mk.injEq, List.cons.injEq, Dual.mk.injEq, and_true, true_and]
  constructor <;> ring

/-- Witness for claim C2 at dualExp and concrete numbers. -/
theorem claim_C2_witness :
    (∀ x : Dual, x.va = 0 → dualExp x = ⟨1, x.da⟩)
    ∧ (Dice.expectation dualExp
        (Dice.init (fun _ => (0 : Dual)) dualDetach
          [(1, ⟨true, .ten ⟨[], [⟨5, 7⟩]⟩, none, 0⟩),
           (2, ⟨true, .ten ⟨[4], [⟨1, 10⟩, ⟨2, 20⟩, ⟨3, 30⟩, ⟨4, 40⟩]⟩, none, 0⟩)]
          (fun n => if n = 1 then ∅ else ordF))
        ⟨[4], [⟨1, 0⟩, ⟨2, 0⟩, ⟨3, 0⟩, ⟨4, 0⟩]⟩ ordF).1
      = some (.ten ⟨[], [⟨1 + 2 + 3 + 4,
          (1 + 2 + 3 + 4) * 7 + (1 * 10 + 2 * 20 + 3 * 30 + 4 * 40)⟩]⟩) :=
  ⟨fun x hx => by rw [dualExp],
    claim_C2 dualExp (fun x hx => by rw [dualExp]) 5 7 1 10 2 20 3 30 4 40 1 2 3 4⟩

theorem alookup_aset_self {K B : Type} [DecidableEq K] (k : K) (v : B) :
    ∀ m : List (K × B), alookup k m ≠ none → alookup k (aset k v m) = some v
  | [], h => absurd rfl h
  | p :: rest, h => by
    by_cases hp : p.1 = k
    · rw [aset, if_pos hp, alookup, if_pos rfl]
    · rw [aset, if_neg hp, alookup, if_neg hp]
      rw [alookup, if_neg hp] at h
      exact alookup_aset_self k v rest h

theorem alookup_aset_ne {K B : Type} [DecidableEq K] (k k2 : K) (v : B) (h : k2 ≠ k) :
    ∀ m : List (K × B), alookup k2 (aset k v m) = alookup k2 m
  | [] => rfl
  | p :: rest => by
    by_cases hp : p.1 = k
    · rw [aset, if_pos hp]
      show (if k = k2 then some v else alookup k2 rest)
        = (if p.1 = k2 then some p.2 else alookup k2 rest)
      rw [if_neg (show ¬ k = k2 from fun hh => h hh.symm),
        if_neg (show ¬ p.1 = k2 from fun hh => h (hp.symm.trans hh).symm)]
    · rw [aset, if_neg hp]
      show (if p.1 = k2 then some p.2 else alookup k2 (aset k v rest))
        = (if p.1 = k2 then some p.2 else alookup k2 rest)
      by_cases hp2 : p.1 = k2
      · rw [if_pos hp2, if_pos hp2]
      · rw [if_neg hp2, if_neg hp2]
        exact alookup_aset_ne k k2 v h rest

/-- Counterexample to claim C8 as stated: an existing entry of shape (2,)
under the empty frame set, plus a supplied pair with no vectorized frames
(the invariant holds vacuously) and a value of shape (3,): add does not
succeed, because the elementwise addition of the stored entry and the new
value raises the broadcast error. -/
theorem claim_C8_counterexample :
    MultiFrameTensor.add [(∅, ⟨[2], ([1, 1] : List Int)⟩)]
      [([], ⟨[3], ([1, 1, 1] : List Int)⟩)]
      = .error .broadcastError := rfl

/-- Claim C8 as amended: add fails with the precondition-violation error
when a supplied pair contains a vectorized frame with a non-negative
dimension or one below the value's rank; when every vectorized frame of a
pair satisfies the invariant AND the value is broadcast-compatible with
any entry already stored under the same frame set, add succeeds,
inserting the value under the frozenset of its vectorized frames or
element-wise adding it to the existing entry, leaving all other keys
unchanged; bulk addition applies the pairs in order. -/
theorem claim_C8_amended :
    (∀ (m : MultiFrameTensor Int) (stack : List Frame) (value : Tensor Int)
        (rest : List (List Frame × Tensor Int)),
      (∃ f ∈ vectorizedFrames stack, ¬ (f.dim < 0 ∧ -(value.rank : Int) ≤ f.dim)) →
      MultiFrameTensor.add m ((stack, value) :: rest) = .error .assertViolation)
    ∧ (∀ (m : MultiFrameTensor Int) (stack : List Frame) (value : Tensor Int),
      (∀ f ∈ vectorizedFrames stack, f.dim < 0 ∧ -(value.rank : Int) ≤ f.dim) →
      alookup (vectorizedFrames stack) m = none →
      MultiFrameTensor.add m [(stack, value)]
        = .ok (m ++ [(vectorizedFrames stack, value)]))
    ∧ (∀ (m : MultiFrameTensor Int) (stack : List Frame) (value old t2 : Tensor Int),
      (∀ f ∈ vectorizedFrames stack, f.dim < 0 ∧ -(value.rank : Int) ≤ f.dim) →
      alookup (vectorizedFrames stack) m = some old →
      tensorAdd old value = some t2 →
      ∃ m2, MultiFrameTensor.add m [(stack, value)] = .ok m2
        ∧ alookup (vectorizedFrames stack) m2 = some t2
        ∧ ∀ K : Finset Frame, K ≠ vectorizedFrames stack → alookup K m2 = alookup K m)
    ∧ (∀ (m : MultiFrameTensor Int) (stack : List Frame) (value : Tensor Int)
        (rest : List (List Frame × Tensor Int)) (m2 : MultiFrameTensor Int),
      MultiFrameTensor.addPair m stack value = .ok m2 →
      MultiFrameTensor.add m ((stack, value) :: rest) = MultiFrameTensor.add m2 rest) := by
  refine ⟨?_, ?_, ?_, ?_⟩
  · intro m stack value rest hviol
    have hcond : ¬ ∀ f ∈ vectorizedFrames stack,
        f.dim < 0 ∧ -(value.rank : Int) ≤ f.dim := by
      rcases hviol with ⟨f, hf, hnf⟩
      intro hall
      exact hnf (hall f hf)
    have hpair : MultiFrameTensor.addPair m stack value = .error .assertViolation := by
      simp only [MultiFrameTensor.addPair, if_neg hcond]
    rw [MultiFrameTensor.add, hpair]
  · intro m stack value hinv hlook
    have hpair : MultiFrameTensor.addPair m stack value
        = .ok (m ++ [(vectorizedFrames stack, value)]) := by
      simp only [MultiFrameTensor.addPair, if_pos hinv, hlook]
    rw [MultiFrameTensor.add, hpair]
    rfl
  · intro m stack value old t2 hinv hlook htadd
    have hpair : MultiFrameTensor.addPair m stack value
        = .ok (aset (vectorizedFrames stack) t2 m) := by
      simp only [MultiFrameTensor.addPair, if_pos hinv, hlook, htadd]
    refine ⟨aset (vectorizedFrames stack) t2 m, ?_, ?_, ?_⟩
    · rw [MultiFrameTensor.add, hpair]
      rfl
    · exact alookup_aset_self _ t2 m (by rw [hlook]; exact fun h => by cases h)
    · intro K hK
      exact alookup_aset_ne _ K t2 hK m
  · intro m stack value rest m2 hpair
    rw [MultiFrameTensor.add, hpair]

/-- Witness for the amended claim C8, exercising all four conjuncts at
concrete inputs: a violating frame of dimension 1, a fresh insert under
frame set {frameF}, an elementwise add onto an existing entry, and the
sequencing of a bulk call. -/
theorem claim_C8_amended_witness :
    ((∃ f ∈ vectorizedFrames [⟨0, 1, true⟩],
        ¬ (f.dim < 0 ∧ -((Tensor.rank (⟨[2], [1, 1]⟩ : Tensor Int)) : Int) ≤ f.dim))
      ∧ MultiFrameTensor.add ([] : MultiFrameTensor Int)
          [([⟨0, 1, true⟩], ⟨[2], [1, 1]⟩)] = .error .assertViolation)
    ∧ ((∀ f ∈ vectorizedFrames [frameF],
          f.dim < 0 ∧ -((Tensor.rank (⟨[2], [1, 1]⟩ : Tensor Int)) : Int) ≤ f.dim)
      ∧ alookup (vectorizedFrames [frameF]) ([] : MultiFrameTensor Int) = none
      ∧ MultiFrameTensor.add ([] : MultiFrameTensor Int) [([frameF], ⟨[2], [1, 1]⟩)]
          = .ok ([] ++ [(vectorizedFrames [frameF], ⟨[2], [1, 1]⟩)]))
    ∧ (alookup (vectorizedFrames [frameF])
          ([({frameF}, ⟨[2], [1, 1]⟩)] : MultiFrameTensor Int) = some ⟨[2], [1, 1]⟩
      ∧ tensorAdd (⟨[2], [1, 1]⟩ : Tensor Int) ⟨[2], [5, 5]⟩ = some ⟨[2], [6, 6]⟩
      ∧ ∃ m2, MultiFrameTensor.add ([({frameF}, ⟨[2], [1, 1]⟩)] : MultiFrameTensor Int)
            [([frameF], ⟨[2], [5, 5]⟩)] = .ok m2
          ∧ alookup (vectorizedFrames [frameF]) m2 = some ⟨[2], [6, 6]⟩
          ∧ ∀ K : Finset Frame, K ≠ vectorizedFrames [frameF] →
              alookup K m2 = alookup K ([({frameF}, ⟨[2], [1, 1]⟩)] : MultiFrameTensor Int))
    ∧ (MultiFrameTensor.addPair ([] : MultiFrameTensor Int) [] ⟨[], [0]⟩
          = .ok [(∅, ⟨[], [0]⟩)]
      ∧ MultiFrameTensor.add ([] : MultiFrameTensor Int) [([], ⟨[], [0]⟩)]
          = MultiFrameTensor.add [(∅, (⟨[], [0]⟩ : Tensor Int))] []) :=
  ⟨⟨by decide, claim_C8_amended.1 [] [⟨0, 1, true⟩] ⟨[2], [1, 1]⟩ [] (by decide)⟩,
   ⟨by decide, by decide,
     claim_C8_amended.2.1 [] [frameF] ⟨[2], [1, 1]⟩ (by decide) (by decide)⟩,
   ⟨by decide, by decide,
     claim_C8_amended.2.2.1 [({frameF}, ⟨[2], [1, 1]⟩)] [frameF] ⟨[2], [5, 5]⟩
       ⟨[2], [1, 1]⟩ ⟨[2], [6, 6]⟩ (by decide) (by decide) (by decide)⟩,
   ⟨rfl,
     claim_C8_amended.2.2.2 [] [] ⟨[], [0]⟩ [] [(∅, ⟨[], [0]⟩)] rfl⟩⟩

theorem foldl_frameStep_true {R : Type} [Add R] [Zero R] (target : Finset Frame) :
    ∀ (l : List Frame) (p : Tensor R × Bool), p.2 = true →
    (l.foldl (frameStep target) p).2 = true
  | [], _, h => h
  | f :: rest, p, h => by
    rw [List.foldl_cons]
    by_cases hc : f ∉ target ∧ tget p.1.shape (-f.dim).toNat ≠ 1
    · exact foldl_frameStep_true target rest _ (by rw [frameStep, if_pos hc])
    · exact foldl_frameStep_true target rest _ (by rw [frameStep, if_neg hc]; exact h)

theorem foldl_frameStep_false_fix {R : Type} [Add R] [Zero R] (target : Finset Frame)
    (v : Tensor R) :
    ∀ (l : List Frame) (p : Tensor R × Bool), (p.2 = false → p.1 = v) →
    (l.foldl (frameStep target) p).2 = false →
    (l.foldl (frameStep target) p).1 = v
  | [], p, hw, hfix => by
    rw [List.foldl_nil] at hfix ⊢
    exact hw hfix
  | f :: rest, p, hw, hfix => by
    rw [List.foldl_cons] at hfix ⊢
    by_cases hc : f ∉ target ∧ tget p.1.shape (-f.dim).toNat ≠ 1
    · rw [frameStep, if_pos hc] at hfix ⊢
      exact absurd (foldl_frameStep_true target rest _ rfl) (by rw [hfix]; exact fun h => by cases h)
    · rw [frameStep, if_neg hc] at hfix ⊢
      exact foldl_frameStep_false_fix target v rest p hw hfix

theorem foldl_frameStep_exists {R : Type} [Add R] [Zero R] (target : Finset Frame)
    (v : Tensor R) :
    ∀ (l : List Frame) (p : Tensor R × Bool), (p.2 = false → p.1 = v) →
    (l.foldl (frameStep target) p).2 = true →
    p.2 = true ∨ ∃ f ∈ l, f ∉ target ∧ tget v.shape (-f.dim).toNat ≠ 1
  | [], p, _, htrue => by
    rw [List.foldl_nil] at htrue
    exact Or.inl htrue
  | f :: rest, p, hw, htrue => by
    rw [List.foldl_cons] at htrue
    by_cases hc : f ∉ target ∧ tget p.1.shape (-f.dim).toNat ≠ 1
    · cases hb : p.2 with
      | true => exact Or.inl rfl
      | false =>
        refine Or.inr ⟨f, List.mem_cons_self f rest, ?_⟩
        rw [hw hb] at hc
        exact hc
    · rw [frameStep, if_neg hc] at htrue
      rcases foldl_frameStep_exists target v rest p hw htrue with hb | ⟨f2, hf2, hc2⟩
      · exact Or.inl hb
      · exact Or.inr ⟨f2, List.mem_cons_of_mem f hf2, hc2⟩

theorem foldl_frameStep_of_exists {R : Type} [Add R] [Zero R] (target : Finset Frame)
    (v : Tensor R) :
    ∀ (l : List Frame) (p : Tensor R × Bool), (p.2 = false → p.1 = v) →
    (∃ f ∈ l, f ∉ target ∧ tget v.shape (-f.dim).toNat ≠ 1) →
    (l.foldl (frameStep target) p).2 = true
  | [], _, _, hex => by
    rcases hex with ⟨f, hf, _⟩
    cases hf
  | f :: rest, p, hw, hex => by
    rw [List.foldl_cons]
    by_cases hc : f ∉ target ∧ tget p.1.shape (-f.dim).toNat ≠ 1
    · exact foldl_frameStep_true target rest _ (by rw [frameStep, if_pos hc])
    · cases hb : p.2 with
      | true =>
        exact foldl_frameStep_true target rest _ (by rw [frameStep, if_neg hc]; exact hb)
      | false =>
        rw [frameStep, if_neg hc]
        rcases hex with ⟨f2, hf2, hc2⟩
        rcases List.mem_cons.mp hf2 with hf2e | hf2r
        · subst hf2e
          rw [hw hb] at hc
          exact absurd hc2 hc
        · exact foldl_frameStep_of_exists target v rest p hw ⟨f2, hf2r, hc2⟩

theorem frameLoop_snd_iff {R : Type} [Add R] [Zero R] (target : Finset Frame)
    (l : List Frame) (v : Tensor R) :
    (frameLoop target l v).2 = true
      ↔ ∃ f ∈ l, f ∉ target ∧ tget v.shape (-f.dim).toNat ≠ 1 := by
  constructor
  · intro h
    rcases foldl_frameStep_exists target v l (v, false) (fun _ => rfl) h with hb | hex
    · cases hb
    · exact hex
  · intro hex
    exact foldl_frameStep_of_exists target v l (v, false) (fun _ => rfl) hex

theorem frameLoop_false_fst {R : Type} [Add R] [Zero R] (target : Finset Frame)
    (l : List Frame) (v : Tensor R) (h : (frameLoop target l v).2 = false) :
    (frameLoop target l v).1 = v :=
  foldl_frameStep_false_fix target v l (v, false) (fun _ => rfl) h

theorem frameLoop_snd_iff_finset {R : Type} [Add R] [Zero R] (target fs : Finset Frame)
    (v : Tensor R) :
    (frameLoop target (orderedFrames fs) v).2 = true
      ↔ ∃ f ∈ fs, f ∉ target ∧ tget v.shape (-f.dim).toNat ≠ 1 := by
  rw [frameLoop_snd_iff]
  constructor
  · rintro ⟨f, hf, hc⟩
    exact ⟨f, (mem_orderedFrames f fs).mp hf, hc⟩
  · rintro ⟨f, hf, hc⟩
    exact ⟨f, (mem_orderedFrames f fs).mpr hf, hc⟩

theorem stored_entry_eq {R : Type} [Add R] [Zero R] (target fs : Finset Frame)
    (v : Tensor R) :
    (if (frameLoop target (orderedFrames fs) v).2 then v
      else squeezeLead (frameLoop target (orderedFrames fs) v).1)
    = (if ∃ f ∈ fs, f ∉ target ∧ tget v.shape (-f.dim).toNat ≠ 1
      then v else squeezeLead v) := by
  cases hb : (frameLoop target (orderedFrames fs) v).2 with
  | true =>
    rw [if_pos ((frameLoop_snd_iff_finset target fs v).mp hb)]
    simp
  | false =>
    have hne : ¬ ∃ f ∈ fs, f ∉ target ∧ tget v.shape (-f.dim).toNat ≠ 1 := fun hex => by
      rw [(frameLoop_snd_iff_finset target fs v).mpr hex] at hb
      cases hb
    rw [if_neg hne, frameLoop_false_fst target _ v hb]
    simp

theorem sumToGo_entries {R : Type} [Add R] [Zero R] (target : Finset Frame) :
    ∀ (l : List (Finset Frame × Tensor R)) (total : Option (Tensor R)),
    (sumToGo target l total).1 ≠ none →
    (sumToGo target l total).2
      = l.map fun e => (e.1,
          if ∃ f ∈ e.1, f ∉ target ∧ tget e.2.shape (-f.dim).toNat ≠ 1
          then e.2 else squeezeLead e.2)
  | [], _, _ => rfl
  | (fs, v) :: rest, none, hok => by
    rw [sumToGo] at hok ⊢
    dsimp only at hok ⊢
    rw [List.map_cons]
    rw [sumToGo_entries target rest _ hok, stored_entry_eq]
  | (fs, v) :: rest, some tt, hok => by
    rw [sumToGo] at hok ⊢
    dsimp only at hok ⊢
    rcases hta : tensorAdd tt (squeezeLead (frameLoop target (orderedFrames fs) v).1)
      with _ | t2
    · rw [hta] at hok
      dsimp only at hok
      exact absurd rfl hok
    · rw [hta] at hok
      dsimp only at hok ⊢
      rw [List.map_cons]
      rw [sumToGo_entries target rest _ hok, stored_entry_eq]

/-- Counterexample to claim C5 as stated: one stored entry with no
vectorized frames and value of shape (1, 3).  The frame loop performs no
sum, so the loop variable still aliases the stored tensor and the
in-place squeeze_ strips its leading size-1 axis: after sum_to the stored
entry has shape (3,), not its original shape (1, 3). -/
theorem claim_C5_counterexample :
    (MultiFrameTensor.sum_to [(∅, (⟨[1, 3], [1, 2, 3]⟩ : Tensor Int))] ∅).2
      = [(∅, ⟨[3], [1, 2, 3]⟩)]
    ∧ (MultiFrameTensor.sum_to [(∅, (⟨[1, 3], [1, 2, 3]⟩ : Tensor Int))] ∅).2
      ≠ [(∅, ⟨[1, 3], [1, 2, 3]⟩)] := by
  refine ⟨rfl, by decide⟩

/-- Claim C5 as amended: on a call of sum_to that does not raise, a
stored entry for which the frame loop summed at least one axis (some
frame outside the target with size other than 1 at its dimension) is
rebound to a fresh tensor and left unchanged in the store; a stored entry
with no such axis still aliases the loop variable, so the trailing
in-place squeeze strips its leading size-1 axes in the store (when its
leading axis is not of size 1 this squeeze is the identity and the entry
is also unchanged). -/
theorem claim_C5_amended (m : MultiFrameTensor Int) (target : Finset Frame)
    (hinv : ∀ e ∈ m, ∀ f ∈ e.1, f.dim < 0 ∧ -(e.2.rank : Int) ≤ f.dim)
    (hok : (MultiFrameTensor.sum_to m target).1 ≠ none) :
    (MultiFrameTensor.sum_to m target).2
      = m.map fun e => (e.1,
          if ∃ f ∈ e.1, f ∉ target ∧ tget e.2.shape (-f.dim).toNat ≠ 1
          then e.2 else squeezeLead e.2) :=
  sumToGo_entries target m none hok

/-- Witness for the amended claim C5: a two-entry accumulator in which
the first entry gets its frame axis summed (stored tensor untouched) and
the second entry, already reduced, gets squeezed in place. -/
theorem claim_C5_amended_witness :
    (∀ e ∈ ([({frameF}, ⟨[2], [1, 2]⟩), (∅, ⟨[1, 2], [3, 4]⟩)] : MultiFrameTensor Int),
        ∀ f ∈ e.1, f.dim < 0 ∧ -(e.2.rank : Int) ≤ f.dim)
    ∧ (MultiFrameTensor.sum_to
        ([({frameF}, ⟨[2], [1, 2]⟩), (∅, ⟨[1, 2], [3, 4]⟩)] : MultiFrameTensor Int) ∅).1
        ≠ none
    ∧ (MultiFrameTensor.sum_to
        ([({frameF}, ⟨[2], [1, 2]⟩), (∅, ⟨[1, 2], [3, 4]⟩)] : MultiFrameTensor Int) ∅).2
      = List.map
          (fun e => (e.1,
            if ∃ f ∈ e.1, f ∉ (∅ : Finset Frame) ∧ tget e.2.shape (-f.dim).toNat ≠ 1
            then e.2 else squeezeLead e.2))
          ([({frameF}, ⟨[2], [1, 2]⟩), (∅, ⟨[1, 2], [3, 4]⟩)] : MultiFrameTensor Int) :=
  ⟨by decide, by decide,
    claim_C5_amended [({frameF}, ⟨[2], [1, 2]⟩), (∅, ⟨[1, 2], [3, 4]⟩)] ∅
      (by decide) (by decide)⟩

set_option maxRecDepth 10000 in
/-- Claim C7: one entry keyed by the frames A (dim -1) and B (dim -2)
with a 3 by 3 value; sum_to {A} sums out the axis at B.dim, strips the
resulting leading size-1 axis, and returns the size-3 tensor of column
sums living on A's axis. -/
theorem claim_C7 (a b c d e f g h i : Int) :
    (MultiFrameTensor.sum_to
      [({⟨0, -1, true⟩, ⟨1, -2, true⟩},
        (⟨[3, 3], [a, b, c, d, e, f, g, h, i]⟩ : Tensor Int))]
      {⟨0, -1, true⟩}).1
    = some (some ⟨[3], [a + d + g, b + e + h, c + f + i]⟩) := by
  have key : (MultiFrameTensor.sum_to
      [({⟨0, -1, true⟩, ⟨1, -2, true⟩},
        (⟨[3, 3], [a, b, c, d, e, f, g, h, i]⟩ : Tensor Int))]
      {⟨0, -1, true⟩}).1
    = some (some ⟨[3], [a + (d + (g + 0)), b + (e + (h + 0)), c + (f + (i + 0))]⟩) := by
    with_unfolding_all rfl
  rw [key]
  simp only [Option.some.injEq, Tensor.mk.injEq, List.cons.injEq, and_true, true_and]
  refine ⟨by ring, by ring, by ring⟩
